import Mathlib

/-!
Shallow embedding of the polymarket-rs client core: the market-order pricing
algorithm of `src/orders/price.rs` and the typed HTTP response handling of
`src/http/client.rs`.  `rust_decimal::Decimal` values are embedded as exact
rationals (`ℚ`); fallible operations return `Except`.
-/

namespace Polymarket

/-- Modelled from the spec: `OrderSummary` (declared in `crate::types`, which is
not under `src/`): one order-book price level, carrying a decimal `price` and a
decimal `size` (spec §3), both embedded as exact rationals. -/
structure OrderSummary where
  price : ℚ
  size : ℚ
deriving DecidableEq

/-- Modelled from the spec: the error enum of `crate::error` (not under `src/`),
spec §7: the transport-level failure family, the structured API error carrying
the HTTP status code and raw message, and the domain error `InvalidOrder`
carrying a human-readable message. -/
inductive Error where
  | transport (description : String)
  | api (status : Nat) (message : String)
  | invalidOrder (message : String)
deriving DecidableEq

/-- The error message built at `src/orders/price.rs` lines 50-53:
`format!("Not enough liquidity to create market order with amount {}", amount_to_match)`. -/
def liquidityMessage (amount_to_match : ℚ) : String :=
  "Not enough liquidity to create market order with amount " ++ toString amount_to_match

/-- The `for p in positions` loop of `calculate_market_price`
(`src/orders/price.rs` lines 41-53), with the mutable accumulator `sum` made an
explicit argument: add `p.size * p.price` to `sum`; return `Ok(p.price)` as soon
as `sum >= amount_to_match`; fall through to the `InvalidOrder` error when the
positions are exhausted. -/
def marketPriceLoop (amount_to_match : ℚ) : ℚ → List OrderSummary → Except Error ℚ
  | _, [] => .error (.invalidOrder (liquidityMessage amount_to_match))
  | sum, p :: ps =>
    if amount_to_match ≤ sum + p.size * p.price then .ok p.price
    else marketPriceLoop amount_to_match (sum + p.size * p.price) ps

/-- `calculate_market_price` (`src/orders/price.rs` lines 37-54): walk the book
levels accumulating notional starting from `sum = 0`. -/
def calculate_market_price (positions : List OrderSummary) (amount_to_match : ℚ) :
    Except Error ℚ :=
  marketPriceLoop amount_to_match 0 positions

/-- The exact notional carried by a list of levels: the sum over the levels of
`size * price` (spec §3, §8). -/
def notionalSum : List OrderSummary → ℚ
  | [] => 0
  | p :: ps => p.size * p.price + notionalSum ps

/-- The value of the mutable accumulator `sum` of `calculate_market_price` after
the loop body (`src/orders/price.rs` line 44) has processed the given levels,
starting from the given initial value. -/
def loopAccum : ℚ → List OrderSummary → ℚ
  | sum, [] => sum
  | sum, p :: ps => loopAccum (sum + p.size * p.price) ps

instance {ε α : Type} [DecidableEq ε] [DecidableEq α] : DecidableEq (Except ε α)
  | .ok x, .ok y =>
    if h : x = y then .isTrue (by rw [h]) else .isFalse (fun hc => h (by cases hc; rfl))
  | .ok _, .error _ => .isFalse (fun hc => by cases hc)
  | .error _, .ok _ => .isFalse (fun hc => by cases hc)
  | .error d, .error e =>
    if h : d = e then .isTrue (by rw [h]) else .isFalse (fun hc => h (by cases hc; rfl))

/-- An HTTP response as seen by `handle_response` (`src/http/client.rs`): the
numeric status code and the result of reading the body, `none` when the
best-effort read fails. -/
structure Response where
  status : Nat
  body : Option String
deriving DecidableEq

/-- `reqwest::StatusCode::is_success`: the status lies in the 2xx range. -/
def statusIsSuccess (status : Nat) : Bool :=
  decide (200 ≤ status) && decide (status ≤ 299)

/-- `handle_response` (`src/http/client.rs` lines 118-137): on a success status,
decode the body as JSON into the caller's type `T` — a failed body read or a
failed decode is a transport-level error (`e.into()` on the `reqwest` error);
on a non-success status, read the body as text, substituting `"Unknown error"`
when the read fails, and return `Error::Api { status, message }`.  JSON decoding
into `T` is abstracted as the `decode` argument. -/
def handle_response {T : Type} (decode : String → Option T) (response : Response) :
    Except Error T :=
  if statusIsSuccess response.status then
    match response.body with
    | some b =>
      match decode b with
      | some v => .ok v
      | none => .error (.transport "error decoding response body")
    | none => .error (.transport "error decoding response body")
  else
    .error (.api response.status (response.body.getD "Unknown error"))

/-- `get` (`src/http/client.rs` lines 34-49) after the request has been built
and sent: `request.send().await?` either fails, which the `?` operator converts
into the transport-level error family, or yields a response that is passed to
`handle_response`. -/
def get {T : Type} (decode : String → Option T) (sendResult : Except String Response) :
    Except Error T :=
  match sendResult with
  | .error e => .error (.transport e)
  | .ok r => handle_response decode r

/-- `post` (`src/http/client.rs` lines 52-73): the JSON body only shapes the
request being sent; the response handling is identical to `get`. -/
def post {T : Type} (decode : String → Option T) (sendResult : Except String Response) :
    Except Error T :=
  match sendResult with
  | .error e => .error (.transport e)
  | .ok r => handle_response decode r

/-- `delete` (`src/http/client.rs` lines 76-91): response handling identical to
`get`. -/
def delete {T : Type} (decode : String → Option T) (sendResult : Except String Response) :
    Except Error T :=
  match sendResult with
  | .error e => .error (.transport e)
  | .ok r => handle_response decode r

/-- `delete_with_body` (`src/http/client.rs` lines 94-115): the JSON body only
shapes the request being sent; the response handling is identical to `get`. -/
def delete_with_body {T : Type} (decode : String → Option T)
    (sendResult : Except String Response) : Except Error T :=
  match sendResult with
  | .error e => .error (.transport e)
  | .ok r => handle_response decode r

/-- The default header map built in `HttpClient::new` (`src/http/client.rs`
lines 15-31); `reqwest` header names are lower-case. -/
def defaultHeaders : List (String × String) :=
  [("user-agent", "py_clob_client"), ("accept", "*/*"),
   ("connection", "keep-alive"), ("content-type", "application/json")]

/-- Lookup of a header value by name in a header map (first entry wins). -/
def headerLookup (name : String) : List (String × String) → Option String
  | [] => none
  | kv :: hs => if kv.1 = name then some kv.2 else headerLookup name hs

/-- How many entries of a header map carry the given name (used to state that a
header is never sent duplicated). -/
def headerCount (name : String) : List (String × String) → Nat
  | [] => 0
  | kv :: hs => (if kv.1 = name then 1 else 0) + headerCount name hs

/-- The header map of a built request after the caller's per-call headers have
been applied with `request.header(key, value)` (`src/http/client.rs` lines
41-45): each entry is appended to the request's initially empty header map.
`reqwest` normalizes header names to lower-case, making name comparison
case-insensitive; the model works directly with the normalized names. -/
def requestHeaders (perCall : List (String × String)) : List (String × String) :=
  perCall

/-- The header map actually sent for a call: when dispatching, `reqwest` merges
the client's default headers (installed by `Client::builder().default_headers`
in `HttpClient::new`) into the request's map filling only vacant names — a
default header is dropped when the request already carries an entry with the
same name. -/
def sentHeaders (perCall : List (String × String)) : List (String × String) :=
  requestHeaders perCall ++
    defaultHeaders.filter (fun d => (headerLookup d.1 (requestHeaders perCall)).isNone)

/-- A sample JSON decoder used by concrete instantiations: accepts exactly the
body `"1"`, decoding it to the number `1`. -/
def decodeNat1 : String → Option Nat :=
  fun s => if s = "1" then some 1 else none

example : calculate_market_price [⟨1/2, 100⟩, ⟨51/100, 200⟩] 50 = .ok (1/2) := by
  norm_num [calculate_market_price, marketPriceLoop]
example : calculate_market_price [⟨1/2, 100⟩, ⟨51/100, 200⟩] 60 = .ok (51/100) := by
  norm_num [calculate_market_price, marketPriceLoop]
example : calculate_market_price [⟨1/2, 100⟩, ⟨51/100, 200⟩] 200 =
    .error (.invalidOrder (liquidityMessage 200)) := by
  norm_num [calculate_market_price, marketPriceLoop]
example : liquidityMessage 200 =
    "Not enough liquidity to create market order with amount " ++ toString (200 : ℚ) := rfl

theorem notionalSum_nonneg (ls : List OrderSummary)
    (h : ∀ l ∈ ls, 0 ≤ l.price ∧ 0 ≤ l.size) : 0 ≤ notionalSum ls := by
  induction ls with
  | nil => simp [notionalSum]
  | cons p ps ih =>
    have hp := h p (List.mem_cons_self p ps)
    have hps := ih (fun l hl => h l (List.mem_cons_of_mem p hl))
    have hmul : 0 ≤ p.size * p.price := mul_nonneg hp.2 hp.1
    simp only [notionalSum]
    linarith

theorem marketPriceLoop_insufficient (amount : ℚ) (ls : List OrderSummary) :
    ∀ sum : ℚ, (∀ l ∈ ls, 0 ≤ l.price ∧ 0 ≤ l.size) → sum + notionalSum ls < amount →
    marketPriceLoop amount sum ls = .error (.invalidOrder (liquidityMessage amount)) := by
  induction ls with
  | nil => intro sum _ _; simp [marketPriceLoop]
  | cons p ps ih =>
    intro sum hnn h
    have hpsnn : ∀ l ∈ ps, 0 ≤ l.price ∧ 0 ≤ l.size :=
      fun l hl => hnn l (List.mem_cons_of_mem p hl)
    have h0 : 0 ≤ notionalSum ps := notionalSum_nonneg ps hpsnn
    have hlt : ¬ (amount ≤ sum + p.size * p.price) := by
      intro hc
      simp only [notionalSum] at h
      linarith
    simp only [marketPriceLoop, if_neg hlt]
    apply ih (sum + p.size * p.price) hpsnn
    simp only [notionalSum] at h
    linarith

theorem marketPriceLoop_error_total (amount sum : ℚ) (ls : List OrderSummary) (e : Error)
    (h : marketPriceLoop amount sum ls = .error e) :
    ls = [] ∨ sum + notionalSum ls < amount := by
  induction ls generalizing sum with
  | nil => exact Or.inl rfl
  | cons p ps ih =>
    right
    by_cases hc : amount ≤ sum + p.size * p.price
    · simp [marketPriceLoop, if_pos hc] at h
    · simp only [marketPriceLoop, if_neg hc] at h
      rcases ih (sum + p.size * p.price) h with hnil | hlt
      · subst hnil
        simp only [notionalSum]
        push_neg at hc
        linarith
      · simp only [notionalSum]
        linarith

theorem marketPriceLoop_ok_mem (amount sum : ℚ) (ls : List OrderSummary) (q : ℚ)
    (h : marketPriceLoop amount sum ls = .ok q) :
    ∃ l ∈ ls, l.price = q := by
  induction ls generalizing sum with
  | nil => simp [marketPriceLoop] at h
  | cons p ps ih =>
    by_cases hc : amount ≤ sum + p.size * p.price
    · simp only [marketPriceLoop, if_pos hc, Except.ok.injEq] at h
      exact ⟨p, List.mem_cons_self p ps, h⟩
    · simp only [marketPriceLoop, if_neg hc] at h
      obtain ⟨l, hl, hlq⟩ := ih (sum + p.size * p.price) h
      exact ⟨l, List.mem_cons_of_mem p hl, hlq⟩

theorem marketPriceLoop_reach (amount sum : ℚ) (pre : List OrderSummary)
    (p : OrderSummary) (suffix : List OrderSummary)
    (hFirst : ∀ k, 1 ≤ k → k ≤ pre.length →
      sum + notionalSum ((pre ++ [p]).take k) < amount)
    (hReach : amount ≤ sum + notionalSum (pre ++ [p])) :
    marketPriceLoop amount sum (pre ++ [p] ++ suffix) = .ok p.price := by
  induction pre generalizing sum with
  | nil =>
    have hc : amount ≤ sum + p.size * p.price := by
      simp only [List.nil_append, notionalSum] at hReach
      linarith
    simp [marketPriceLoop, if_pos hc]
  | cons q pre ih =>
    have h1 : sum + q.size * q.price < amount := by
      have h1' := hFirst 1 (le_refl 1) (by simp)
      simp only [List.cons_append, List.take_succ_cons, List.take_zero, notionalSum] at h1'
      linarith
    have hnotle : ¬ (amount ≤ sum + q.size * q.price) := not_le.mpr h1
    simp only [List.cons_append, marketPriceLoop, if_neg hnotle]
    apply ih (sum + q.size * q.price)
    · intro k hk1 hk2
      have h' := hFirst (k + 1) (by omega) (by simp; omega)
      simp only [List.cons_append, List.take_succ_cons, notionalSum, List.append_eq] at h'
      linarith
    · simp only [List.cons_append, notionalSum, List.append_eq] at hReach
      linarith

/-- C1: for every non-empty sequence of levels whose cumulative notional,
scanning in order, first reaches or exceeds `amount_to_match` at the prefix
`pre ++ [p]` (every shorter non-empty prefix stays strictly below the target),
`calculate_market_price` returns `Ok` of exactly that prefix-terminal level's
price, and this holds for every choice of the remaining levels `suffix` — so
the result does not depend on any level after the prefix. -/
theorem calculate_market_price_first_reach (pre suffix : List OrderSummary)
    (p : OrderSummary) (amount_to_match : ℚ)
    (hFirst : ∀ k, 1 ≤ k → k ≤ pre.length →
      notionalSum ((pre ++ [p]).take k) < amount_to_match)
    (hReach : amount_to_match ≤ notionalSum (pre ++ [p])) :
    calculate_market_price (pre ++ [p] ++ suffix) amount_to_match = .ok p.price := by
  unfold calculate_market_price
  apply marketPriceLoop_reach
  · intro k hk1 hk2
    simpa using hFirst k hk1 hk2
  · simpa using hReach

/-- Witness for C1 at a concrete book: levels (price 2, size 3) and
(price 5, size 1) followed by a sentinel level (price 99, size 99); with target
10 the second level completes the fill, its price 5 is returned, and the
sentinel is never examined. -/
theorem calculate_market_price_first_reach_witness :
    calculate_market_price
      (([⟨2, 3⟩] : List OrderSummary) ++ [⟨5, 1⟩] ++ [⟨99, 99⟩]) 10 = .ok 5 := by
  apply calculate_market_price_first_reach
  · intro k hk1 hk2
    have hk : k = 1 := le_antisymm (by simpa using hk2) hk1
    subst hk
    norm_num [notionalSum]
  · norm_num [notionalSum]

/-- C2: for every sequence of levels (each level carrying the data-model
invariants price ≥ 0 and size ≥ 0, spec §3) whose total notional is strictly
below `amount_to_match`, `calculate_market_price` returns the `InvalidOrder`
insufficient-liquidity error, and the error's message string contains the
rendering of the requested `amount_to_match`. -/
theorem calculate_market_price_insufficient (positions : List OrderSummary)
    (amount_to_match : ℚ)
    (hnn : ∀ l ∈ positions, 0 ≤ l.price ∧ 0 ≤ l.size)
    (h : notionalSum positions < amount_to_match) :
    calculate_market_price positions amount_to_match =
      .error (.invalidOrder (liquidityMessage amount_to_match)) ∧
    ∃ before, liquidityMessage amount_to_match = before ++ toString amount_to_match := by
  refine ⟨?_, "Not enough liquidity to create market order with amount ", rfl⟩
  unfold calculate_market_price
  apply marketPriceLoop_insufficient amount_to_match positions 0 hnn
  linarith

/-- Witness for C2: one level (price 2, size 3), total notional 6, target 10. -/
theorem calculate_market_price_insufficient_witness :
    calculate_market_price [(⟨2, 3⟩ : OrderSummary)] 10 =
      .error (.invalidOrder (liquidityMessage 10)) ∧
    ∃ before, liquidityMessage 10 = before ++ toString (10 : ℚ) :=
  calculate_market_price_insufficient [⟨2, 3⟩] 10
    (by
      intro l hl
      rw [List.mem_singleton] at hl
      subst hl
      exact ⟨show (0 : ℚ) ≤ 2 by norm_num, show (0 : ℚ) ≤ 3 by norm_num⟩)
    (by norm_num [notionalSum])

/-- C3: for the empty sequence of levels and every `amount_to_match ≥ 0`,
`calculate_market_price` returns the insufficient-liquidity `InvalidOrder`
error and no price. -/
theorem calculate_market_price_empty (amount_to_match : ℚ)
    (h : 0 ≤ amount_to_match) :
    calculate_market_price [] amount_to_match =
      .error (.invalidOrder (liquidityMessage amount_to_match)) := rfl

/-- Witness for C3 at `amount_to_match = 0`. -/
theorem calculate_market_price_empty_witness :
    calculate_market_price [] 0 = .error (.invalidOrder (liquidityMessage 0)) :=
  calculate_market_price_empty 0 (le_refl 0)

theorem loopAccum_shift (ls : List OrderSummary) :
    ∀ sum : ℚ, loopAccum sum ls = sum + (ls.map (fun p => p.size * p.price)).sum := by
  induction ls with
  | nil => intro sum; simp [loopAccum]
  | cons p ps ih =>
    intro sum
    simp only [loopAccum, ih, List.map_cons, List.sum_cons]
    ring

/-- C6: the pricing arithmetic is exact: the value of the loop accumulator of
`calculate_market_price` after processing the first `k` levels equals the
mathematically exact sum of the first `k` per-level products `size * price`,
with no precision loss (decimal values are embedded as exact rationals and no
binary floating-point is involved anywhere in the computation). -/
theorem loopAccum_exact (positions : List OrderSummary) (k : Nat) :
    loopAccum 0 (positions.take k) =
      ((positions.take k).map (fun p => p.size * p.price)).sum := by
  simpa using loopAccum_shift (positions.take k) 0

/-- C7: a non-positive `amount_to_match` is not rejected by the scan: with a
non-empty book whose first level has non-zero size (levels carrying the
data-model invariants price ≥ 0 and size ≥ 0), the first level's notional
already satisfies the `>=` comparison and its price is returned as `Ok`. -/
theorem calculate_market_price_nonpositive_amount (p : OrderSummary)
    (ps : List OrderSummary) (amount_to_match : ℚ)
    (hamt : amount_to_match ≤ 0) (hsz : p.size ≠ 0)
    (hnn : ∀ l ∈ p :: ps, 0 ≤ l.price ∧ 0 ≤ l.size) :
    calculate_market_price (p :: ps) amount_to_match = .ok p.price := by
  have hp := hnn p (List.mem_cons_self p ps)
  have hc : amount_to_match ≤ 0 + p.size * p.price := by
    have hmul := mul_nonneg hp.2 hp.1
    linarith
  unfold calculate_market_price
  simp only [marketPriceLoop]
  rw [if_pos hc]

/-- Witness for C7: book with the single level (price 2, size 3) and target -1:
the level's price 2 is returned. -/
theorem calculate_market_price_nonpositive_amount_witness :
    calculate_market_price [(⟨2, 3⟩ : OrderSummary)] (-1) = .ok 2 :=
  calculate_market_price_nonpositive_amount ⟨2, 3⟩ [] (-1)
    (by norm_num) (show (3 : ℚ) ≠ 0 by norm_num)
    (by
      intro l hl
      rw [List.mem_singleton] at hl
      subst hl
      exact ⟨show (0 : ℚ) ≤ 2 by norm_num, show (0 : ℚ) ≤ 3 by norm_num⟩)

/-- C9: whenever `calculate_market_price` returns `Ok q`, `q` is the `price`
field of some level of the input sequence: the function never fabricates,
averages, or interpolates a price that is not present in the book. -/
theorem calculate_market_price_ok_mem (positions : List OrderSummary)
    (amount_to_match q : ℚ)
    (h : calculate_market_price positions amount_to_match = .ok q) :
    ∃ l ∈ positions, l.price = q :=
  marketPriceLoop_ok_mem amount_to_match 0 positions q h

/-- Witness for C9: the price 7 returned on the book with the single level
(price 7, size 4) is that level's price field. -/
theorem calculate_market_price_ok_mem_witness :
    ∃ l ∈ [(⟨7, 4⟩ : OrderSummary)], l.price = 7 :=
  calculate_market_price_ok_mem [⟨7, 4⟩] 0 7
    (by norm_num [calculate_market_price, marketPriceLoop])

/-- Counterexample to C10 as stated: at the empty book every level vacuously
satisfies price ≥ 0 and size ≥ 0, and with `amount_to_match = 0` the total
notional 0 reaches the target, yet `calculate_market_price` still returns the
insufficient-liquidity error. -/
theorem calculate_market_price_error_iff_counterexample :
    (∀ l ∈ ([] : List OrderSummary), 0 ≤ l.price ∧ 0 ≤ l.size) ∧
    ¬ notionalSum ([] : List OrderSummary) < 0 ∧
    calculate_market_price [] 0 = .error (.invalidOrder (liquidityMessage 0)) :=
  ⟨by simp, by norm_num [notionalSum], rfl⟩

/-- C10 (amended): for every sequence of levels with price ≥ 0 and size ≥ 0,
`calculate_market_price` returns an error iff the sequence is empty or the
total notional is strictly below `amount_to_match`; in particular, on a
non-empty book it never reports insufficient liquidity when the total notional
reaches or exceeds `amount_to_match`. -/
theorem calculate_market_price_error_iff (positions : List OrderSummary)
    (amount_to_match : ℚ)
    (hnn : ∀ l ∈ positions, 0 ≤ l.price ∧ 0 ≤ l.size) :
    (∃ e, calculate_market_price positions amount_to_match = .error e) ↔
      positions = [] ∨ notionalSum positions < amount_to_match := by
  constructor
  · rintro ⟨e, he⟩
    rcases marketPriceLoop_error_total amount_to_match 0 positions e he with h | h
    · exact Or.inl h
    · exact Or.inr (by linarith)
  · rintro (h | h)
    · subst h
      exact ⟨.invalidOrder (liquidityMessage amount_to_match), rfl⟩
    · exact ⟨.invalidOrder (liquidityMessage amount_to_match),
        marketPriceLoop_insufficient amount_to_match positions 0 hnn (by linarith)⟩

/-- Witness for amended C10 on the one-level book (price 2, size 3) with target
10: the error is equivalent to the total notional 6 falling short of 10. -/
theorem calculate_market_price_error_iff_witness :
    (∃ e, calculate_market_price [(⟨2, 3⟩ : OrderSummary)] 10 = .error e) ↔
      [(⟨2, 3⟩ : OrderSummary)] = [] ∨ notionalSum [(⟨2, 3⟩ : OrderSummary)] < 10 :=
  calculate_market_price_error_iff [⟨2, 3⟩] 10
    (by
      intro l hl
      rw [List.mem_singleton] at hl
      subst hl
      exact ⟨show (0 : ℚ) ≤ 2 by norm_num, show (0 : ℚ) ≤ 3 by norm_num⟩)

/-- C4: for every response with a non-2xx status, `handle_response` — and hence
`get`, `post`, `delete` and `delete_with_body`, which forward the received
response to it — returns `Err(ApiError)` whose `status` field is the response's
numeric status code and whose `message` field is the body read as raw text
(never passed to the JSON decoder: the conclusion does not depend on the
arbitrary `decode`), with the fixed placeholder `"Unknown error"` substituted
when reading the body fails. -/
theorem handle_response_non_success {T : Type} (decode : String → Option T)
    (r : Response) (h : statusIsSuccess r.status = false) :
    handle_response decode r = .error (.api r.status (r.body.getD "Unknown error")) ∧
    get decode (.ok r) = .error (.api r.status (r.body.getD "Unknown error")) ∧
    post decode (.ok r) = .error (.api r.status (r.body.getD "Unknown error")) ∧
    delete decode (.ok r) = .error (.api r.status (r.body.getD "Unknown error")) ∧
    delete_with_body decode (.ok r) =
      .error (.api r.status (r.body.getD "Unknown error")) := by
  have h1 : handle_response decode r =
      .error (.api r.status (r.body.getD "Unknown error")) := by
    simp [handle_response, h]
  exact ⟨h1, h1, h1, h1, h1⟩

/-- Witness for C4: a GET answered with HTTP 404 and body `"not found"` yields
`ApiError { status := 404, message := "not found" }`. -/
theorem handle_response_non_success_witness :
    get decodeNat1 (.ok ⟨404, some "not found"⟩) = .error (.api 404 "not found") :=
  (handle_response_non_success decodeNat1 ⟨404, some "not found"⟩ (by decide)).2.1

/-- C5: for every response with a 2xx status, `handle_response` decodes the body
into the caller's type `T`: a successful decode is returned as `Ok`, a failed
decode (or a failed body read) is a transport-level error, and the result is
never an `ApiError` — so a caller can always distinguish a definitive server
rejection from a failed or corrupt exchange. -/
theorem handle_response_success {T : Type} (decode : String → Option T)
    (r : Response) (h : statusIsSuccess r.status = true) :
    (∀ b v, r.body = some b → decode b = some v → handle_response decode r = .ok v) ∧
    (∀ b, r.body = some b → decode b = none →
      ∃ d, handle_response decode r = .error (.transport d)) ∧
    (∀ s m, handle_response decode r ≠ .error (.api s m)) := by
  refine ⟨?_, ?_, ?_⟩
  · intro b v hb hd
    simp [handle_response, h, hb, hd]
  · intro b hb hd
    exact ⟨"error decoding response body", by simp [handle_response, h, hb, hd]⟩
  · intro s m
    cases hb : r.body with
    | none => simp [handle_response, h, hb]
    | some b =>
      cases hd : decode b with
      | none => simp [handle_response, h, hb, hd]
      | some v => simp [handle_response, h, hb, hd]

/-- Witness for C5: HTTP 200 with body `"1"` decoded by `decodeNat1` yields
`Ok 1`. -/
theorem handle_response_success_witness :
    handle_response decodeNat1 ⟨200, some "1"⟩ = .ok 1 :=
  (handle_response_success decodeNat1 ⟨200, some "1"⟩ (by decide)).1 "1" 1 rfl
    (by simp [decodeNat1])

theorem headerLookup_append_some (name v : String) (xs ys : List (String × String))
    (h : headerLookup name xs = some v) :
    headerLookup name (xs ++ ys) = some v := by
  induction xs with
  | nil => simp [headerLookup] at h
  | cons kv xs ih =>
    by_cases hk : kv.1 = name
    · simp only [headerLookup, if_pos hk] at h
      simp only [List.cons_append, headerLookup, if_pos hk]
      exact h
    · simp only [headerLookup, if_neg hk] at h
      simp only [List.cons_append, headerLookup, if_neg hk]
      exact ih h

theorem headerLookup_append_none (name : String) (xs ys : List (String × String))
    (h : headerLookup name xs = none) :
    headerLookup name (xs ++ ys) = headerLookup name ys := by
  induction xs with
  | nil => simp
  | cons kv xs ih =>
    by_cases hk : kv.1 = name
    · simp only [headerLookup, if_pos hk] at h
      exact Option.noConfusion h
    · simp only [headerLookup, if_neg hk] at h
      simp only [List.cons_append, headerLookup, if_neg hk]
      exact ih h

theorem headerLookup_of_mem (hs : List (String × String)) (k v : String)
    (hnd : (hs.map (fun kv => kv.1)).Nodup)
    (hmem : (k, v) ∈ hs) :
    headerLookup k hs = some v := by
  induction hs with
  | nil => simp at hmem
  | cons kv rest ih =>
    simp only [List.map_cons, List.nodup_cons] at hnd
    rcases List.mem_cons.mp hmem with heq | hmem'
    · subst heq
      simp [headerLookup]
    · have hk : kv.1 ≠ k := by
        intro hcontra
        apply hnd.1
        rw [hcontra]
        exact List.mem_map.mpr ⟨(k, v), hmem', rfl⟩
      simp only [headerLookup, if_neg hk]
      exact ih hnd.2 hmem'

theorem headerCount_append (name : String) (xs ys : List (String × String)) :
    headerCount name (xs ++ ys) = headerCount name xs + headerCount name ys := by
  induction xs with
  | nil => simp [headerCount]
  | cons kv xs ih =>
    simp only [List.cons_append, headerCount, List.append_eq, ih]
    ring

theorem headerCount_eq_zero (name : String) (hs : List (String × String))
    (h : ∀ kv ∈ hs, kv.1 ≠ name) : headerCount name hs = 0 := by
  induction hs with
  | nil => rfl
  | cons kv rest ih =>
    have hk := h kv (List.mem_cons_self kv rest)
    have ih' := ih (fun kv' h' => h kv' (List.mem_cons_of_mem kv h'))
    simp [headerCount, if_neg hk, ih']

theorem headerCount_of_nodup (hs : List (String × String)) (name : String)
    (hnd : (hs.map (fun kv => kv.1)).Nodup)
    (hmem : name ∈ hs.map (fun kv => kv.1)) :
    headerCount name hs = 1 := by
  induction hs with
  | nil => simp at hmem
  | cons kv rest ih =>
    simp only [List.map_cons, List.nodup_cons] at hnd
    rcases List.mem_cons.mp hmem with heq | hmem'
    · have h0 : headerCount name rest = 0 := by
        apply headerCount_eq_zero
        intro kv' h' hc
        exact hnd.1 (List.mem_map.mpr ⟨kv', h', hc.trans heq⟩)
      simp [headerCount, heq.symm, h0]
    · have hk : kv.1 ≠ name := by
        intro hc
        apply hnd.1
        rw [hc]
        exact hmem'
      simp [headerCount, if_neg hk, ih hnd.2 hmem']

theorem headerCount_filter_zero (P : String × String → Bool)
    (hs : List (String × String)) (name : String)
    (h : ∀ kv ∈ hs, kv.1 = name → P kv = false) :
    headerCount name (hs.filter P) = 0 := by
  induction hs with
  | nil => rfl
  | cons kv rest ih =>
    have ih' := ih (fun kv' h' => h kv' (List.mem_cons_of_mem kv h'))
    by_cases hname : kv.1 = name
    · have hP : P kv = false := h kv (List.mem_cons_self kv rest) hname
      simp [List.filter_cons, hP, ih']
    · cases hP : P kv
      · simp [List.filter_cons, hP, ih']
      · simp [List.filter_cons, hP, headerCount, if_neg hname, ih']

theorem headerLookup_filter (P : String × String → Bool) (hs : List (String × String))
    (name v : String)
    (hnd : (hs.map (fun kv => kv.1)).Nodup)
    (hmem : (name, v) ∈ hs) (hP : P (name, v) = true) :
    headerLookup name (hs.filter P) = some v := by
  induction hs with
  | nil => simp at hmem
  | cons kv rest ih =>
    simp only [List.map_cons, List.nodup_cons] at hnd
    rcases List.mem_cons.mp hmem with heq | hmem'
    · subst heq
      simp [List.filter_cons, hP, headerLookup]
    · have hk : kv.1 ≠ name := by
        intro hc
        apply hnd.1
        rw [hc]
        exact List.mem_map.mpr ⟨(name, v), hmem', rfl⟩
      have ih' := ih hnd.2 hmem'
      cases hPkv : P kv
      · simp [List.filter_cons, hPkv, ih']
      · simp [List.filter_cons, hPkv, headerLookup, if_neg hk, ih']

/-- C8: for every call whose per-call header mapping has no duplicate names — a
property every `HashMap` satisfies (names in reqwest's normalized lower-case
form) — the header map actually sent carries the default header set overlaid
with the caller's headers: every caller-supplied header is observed with the
caller's value and appears exactly once, never duplicated alongside a default
with the same name, while every default header the caller does not override is
still carried with its default value. -/
theorem sentHeaders_override (perCall : List (String × String))
    (hnd : (perCall.map (fun kv => kv.1)).Nodup) :
    (∀ k v, (k, v) ∈ perCall →
      headerLookup k (sentHeaders perCall) = some v ∧
      headerCount k (sentHeaders perCall) = 1) ∧
    (∀ dk dv, (dk, dv) ∈ defaultHeaders →
      headerLookup dk (requestHeaders perCall) = none →
      headerLookup dk (sentHeaders perCall) = some dv) := by
  constructor
  · intro k v hmem
    have hlook : headerLookup k (requestHeaders perCall) = some v :=
      headerLookup_of_mem perCall k v hnd hmem
    constructor
    · exact headerLookup_append_some _ _ _ _ hlook
    · rw [sentHeaders, headerCount_append]
      have h1 : headerCount k (requestHeaders perCall) = 1 := by
        apply headerCount_of_nodup _ _ hnd
        exact List.mem_map.mpr ⟨(k, v), hmem, rfl⟩
      have h2 : headerCount k
          (defaultHeaders.filter
            (fun d => (headerLookup d.1 (requestHeaders perCall)).isNone)) = 0 := by
        apply headerCount_filter_zero
        intro kv _ hname
        rw [hname, hlook]
        rfl
      rw [h1, h2]
  · intro dk dv hmem hnone
    rw [sentHeaders, headerLookup_append_none _ _ _ hnone]
    apply headerLookup_filter _ _ _ _ (by decide) hmem
    rw [show ((dk, dv).1 : String) = dk from rfl, hnone]
    rfl

/-- Witness for C8: the single per-call header `accept: text/html` overrides the
default `accept: */*` in the sent header map and is carried exactly once. -/
theorem sentHeaders_override_witness :
    headerLookup "accept" (sentHeaders [("accept", "text/html")]) = some "text/html" ∧
    headerCount "accept" (sentHeaders [("accept", "text/html")]) = 1 :=
  (sentHeaders_override [("accept", "text/html")] (by simp)).1
    "accept" "text/html" (by simp)

end Polymarket
